import Mathlib

set_option maxHeartbeats 1000000

namespace Seafowl

/-- Error taxonomy used by the context and the catalog repository: DataFusion-style
planning/execution/internal/not-implemented errors plus the repository's normalized
not-found and conflict (unique-violation) classifications. -/
inductive SfError where
  | planError : String → SfError
  | executionError : String → SfError
  | internalError : String → SfError
  | notImplemented : String → SfError
  | notFound : SfError
  | conflict : SfError
deriving DecidableEq, Repr

/-- Row of the `database` catalog table. -/
structure DatabaseRow where
  id : Nat
  name : String
deriving DecidableEq, Repr

/-- Row of the `collection` (schema) catalog table. -/
structure CollectionRow where
  id : Nat
  database_id : Nat
  name : String
deriving DecidableEq, Repr

/-- Row of the `"table"` catalog table. -/
structure TableRow where
  id : Nat
  collection_id : Nat
  name : String
  uuid : Nat
  legacy : Bool
deriving DecidableEq, Repr

/-- Row of the `table_version` catalog table. `id` is the primary key,
`version` mirrors the storage-format log version, `creation_time` is the
insertion timestamp. -/
structure TableVersionRow where
  id : Nat
  table_id : Nat
  version : Int
  creation_time : Nat
deriving DecidableEq, Repr

/-- Row of the `table_column` catalog table (per-version column mirror). -/
structure TableColumnRow where
  table_version_id : Nat
  name : String
  type : String
deriving DecidableEq, Repr

/-- The relational state of the versioned catalog store. -/
structure Catalog where
  databases : List DatabaseRow
  collections : List CollectionRow
  tables : List TableRow
  table_versions : List TableVersionRow
  table_columns : List TableColumnRow
deriving DecidableEq, Repr

/-- The SQL ranking `ORDER BY creation_time DESC, id DESC`: row `r` ranks strictly
above row `s`. -/
def ranksAbove (r s : TableVersionRow) : Bool :=
  s.creation_time < r.creation_time ||
    (s.creation_time == r.creation_time && s.id < r.id)

/-- Row `r` carries the `first_value(id) OVER (PARTITION BY table_id ORDER BY
creation_time DESC, id DESC)` of its partition: every row of the same partition
either is `r` itself (same id) or ranks strictly below `r`. -/
def isPartitionTop (vs : List TableVersionRow) (r : TableVersionRow) : Bool :=
  vs.all fun s => s.table_id != r.table_id || s.id == r.id || ranksAbove r s

/-- The id set produced by the window subquery
`SELECT DISTINCT first_value(id) OVER (PARTITION BY table_id ORDER BY creation_time DESC, id DESC)
FROM table_version`: the top-ranked id of every partition. -/
def keptVersionIds (vs : List TableVersionRow) : List Nat :=
  (vs.filter (isPartitionTop vs)).map fun r => r.id

/-- `delete_old_table_versions` from `repository/default.rs`: deletes from `table_version`
every row (restricted to `table_id` when one is supplied) whose id is not in the
window subquery's kept set, and returns the affected-row count. -/
def delete_old_table_versions (vs : List TableVersionRow) (table_id : Option Nat) :
    List TableVersionRow × Nat :=
  let kept := keptVersionIds vs
  let doomed : TableVersionRow → Bool := fun r =>
    (match table_id with
     | some t => r.table_id == t
     | none => true) && !(kept.contains r.id)
  ((vs.filter fun r => !(doomed r)), (vs.filter doomed).length)

/-- Lexicographic key used by the version ranking. -/
def versionKey (r : TableVersionRow) : Nat ×ₗ Nat :=
  toLex (r.creation_time, r.id)

/-- The lookup `SELECT max(table_version.id) FROM table_version JOIN "table" ON
table_version.table_id = "table".id WHERE "table".uuid = $1` in
`create_new_table_version`. `none` models the SQL `NULL` max over an empty join. -/
def maxVersionIdForUuid (c : Catalog) (uuid : Nat) : Option Nat :=
  ((c.table_versions.filter fun v =>
      c.tables.any fun t => v.table_id == t.id && t.uuid == uuid).map fun v => v.id).max?

/-- The auto-increment id the catalog backend assigns to the next `table_version` row. -/
def nextTableVersionId (c : Catalog) : Nat :=
  ((c.table_versions.map fun v => v.id).foldl max 0) + 1

/-- The catalog mirror of a version's column list: the `(name, type)` pairs of the
`table_column` rows attached to the version id. -/
def columnsOfVersion (c : Catalog) (version_id : Nat) : List (String × String) :=
  (c.table_columns.filter fun col => col.table_version_id == version_id).map
    fun col => (col.name, col.type)

/-- `create_new_table_version(uuid, version)` from `repository/default.rs`: looks up the
max version id for the table with the given uuid (a `NULL` max decodes to an error, which
the repository's error normalization surfaces — modelled from the spec as NotFoundError,
since the per-backend `interpret_error` is not part of this source tree); inserts one new
`table_version` row copying the predecessor's `table_id` and carrying the supplied storage
version; then copies the predecessor's `table_column` rows onto the new version id.
`now` models the backend-assigned `creation_time` default. -/
def create_new_table_version (c : Catalog) (uuid : Nat) (version : Int) (now : Nat) :
    Except SfError (Catalog × Nat) :=
  match maxVersionIdForUuid c uuid with
  | none => .error .notFound
  | some last_version_id =>
    match c.table_versions.find? fun v => v.id == last_version_id with
    | none => .error .notFound
    | some pred =>
      let new_version_id := nextTableVersionId c
      let newRow : TableVersionRow :=
        { id := new_version_id, table_id := pred.table_id, version := version,
          creation_time := now }
      let newCols :=
        (c.table_columns.filter fun col => col.table_version_id == last_version_id).map
          fun col => { col with table_version_id := new_version_id }
      .ok ({ c with table_versions := c.table_versions ++ [newRow],
                    table_columns := c.table_columns ++ newCols }, new_version_id)

/-- A row of the bulk metadata query `get_all_columns_in_database`. -/
structure AllDatabaseColumnsResult where
  database_name : String
  collection_name : String
  table_name : String
  table_id : Nat
  table_uuid : Nat
  table_legacy : Bool
  table_version_id : Nat
  column_name : String
  column_type : String
deriving DecidableEq, Repr

/-- The `desired_table_versions` CTE of `get_all_columns_in_database` when an explicit
id list is supplied: the `WHERE table_version.id IN (...)` clause is pushed only when the
supplied list is non-empty, so an empty list selects every version. (The CTE's `ORDER BY`
does not change the joined row set.) -/
def desiredTableVersionsExplicit (vs : List TableVersionRow) (ids : List Nat) :
    List TableVersionRow :=
  if ids.isEmpty then vs else vs.filter fun v => ids.contains v.id

/-- Modelled from the spec: the per-backend `latest_table_versions` query (the
`RepositoryQueries` constant of the Postgres/SQLite repositories is not part of this
source tree). Per the spec, the default reload path fetches the latest version of each
table, using the same `creation_time` desc / `id` desc ranking as version deletion. -/
def latest_table_versions (vs : List TableVersionRow) : List TableVersionRow :=
  vs.filter (isPartitionTop vs)

/-- The main join of `get_all_columns_in_database`: database, collection, table, the
desired version set and the per-version columns, restricted to one database id. -/
def allColumnsRows (c : Catalog) (database_id : Nat) (dtv : List TableVersionRow) :
    List AllDatabaseColumnsResult :=
  c.databases.flatMap fun d =>
    if d.id == database_id then
      c.collections.flatMap fun col =>
        if col.database_id == d.id then
          c.tables.flatMap fun t =>
            if t.collection_id == col.id then
              dtv.flatMap fun v =>
                if v.table_id == t.id then
                  c.table_columns.filterMap fun tc =>
                    if tc.table_version_id == v.id then
                      some { database_name := d.name, collection_name := col.name,
                             table_name := t.name, table_id := t.id, table_uuid := t.uuid,
                             table_legacy := t.legacy, table_version_id := v.id,
                             column_name := tc.name, column_type := tc.type }
                    else none
                else []
            else []
        else []
    else []

/-- `ORDER BY collection_name, table_name, table_version_id, column_name`. -/
def allColumnsLe (a b : AllDatabaseColumnsResult) : Bool :=
  a.collection_name < b.collection_name ||
    (a.collection_name == b.collection_name &&
      (a.table_name < b.table_name ||
        (a.table_name == b.table_name &&
          (a.table_version_id < b.table_version_id ||
            (a.table_version_id == b.table_version_id &&
              a.column_name ≤ b.column_name)))))

/-- `get_all_columns_in_database(database_id, table_version_ids)` from
`repository/default.rs`: builds the desired version set (explicit ids, or the dialect's
latest-per-table query when none are supplied), joins it with the catalog entities for
the one database, and sorts the rows. -/
def get_all_columns_in_database (c : Catalog) (database_id : Nat)
    (table_version_ids : Option (List Nat)) : List AllDatabaseColumnsResult :=
  let dtv := match table_version_ids with
    | some ids => desiredTableVersionsExplicit c.table_versions ids
    | none => latest_table_versions c.table_versions
  (allColumnsRows c database_id dtv).mergeSort allColumnsLe

/-- The name lookup `get_table_id_by_name` (join of `"table"`, `collection` and
`database` on names) from `repository/default.rs`. -/
def get_table_id_by_name (c : Catalog) (database_name collection_name table_name : String) :
    Option Nat :=
  (c.tables.find? fun t =>
    t.name == table_name &&
      c.collections.any fun col =>
        col.id == t.collection_id && col.name == collection_name &&
          c.databases.any fun d =>
            d.id == col.database_id && d.name == database_name).map fun t => t.id

/-- The name lookup `get_collection_id_by_name` from `repository/default.rs`. -/
def get_collection_id_by_name (c : Catalog) (database_name collection_name : String) :
    Option Nat :=
  (c.collections.find? fun col =>
    col.name == collection_name &&
      c.databases.any fun d =>
        d.id == col.database_id && d.name == database_name).map fun col => col.id

/-- `move_table(table_id, new_name, new_collection_id)` from `repository/default.rs`:
updates the name (and, when supplied, the collection pointer) of the `"table"` row with
the given id; the `RETURNING id` / `fetch_one` combination surfaces a not-found error
when no row matched. -/
def move_table (tables : List TableRow) (table_id : Nat) (new_table_name : String)
    (new_collection_id : Option Nat) : Except SfError (List TableRow) :=
  if tables.any fun t => t.id == table_id then
    .ok (tables.map fun t =>
      if t.id == table_id then
        { t with name := new_table_name,
                 collection_id := new_collection_id.getD t.collection_id }
      else t)
  else .error .notFound

/-- A table reference resolved against the context's default database and schema. -/
structure ResolvedRef where
  catalog : String
  schema : String
  table : String
deriving DecidableEq, Repr

/-- RENAME TABLE old→new: the planning checks of `create_logical_plan_from_statement`
(source must resolve, target must not) followed by the execution of the RenameTable
extension node in `create_physical_plan` (reject cross-database targets, re-resolve the
source to a table id, resolve the target collection when the schema changes, then
`move_table`). Table resolution against the reloaded in-memory mirror is modelled as the
catalog name lookup the mirror is built from. -/
def rename_table (c : Catalog) (selfDb : String) (oldRef newRef : ResolvedRef) :
    Except SfError Catalog :=
  if (get_table_id_by_name c oldRef.catalog oldRef.schema oldRef.table).isNone then
    .error (.planError ("Source table " ++ oldRef.table ++ " doesn't exist"))
  else if (get_table_id_by_name c newRef.catalog newRef.schema newRef.table).isSome then
    .error (.planError ("Target table " ++ newRef.table ++ " already exists"))
  else if newRef.catalog != selfDb then
    .error (.planError "Changing the table's database is not supported!")
  else
    match get_table_id_by_name c oldRef.catalog oldRef.schema oldRef.table with
    | none => .error (.executionError "Table not found")
    | some table_id =>
      let schemaStep : Except SfError (Option Nat) :=
        if newRef.schema != oldRef.schema then
          match get_collection_id_by_name c selfDb newRef.schema with
          | none => .error (.planError ("Schema " ++ newRef.schema ++ " does not exist!"))
          | some cid => .ok (some cid)
        else .ok none
      match schemaStep with
      | .error e => .error e
      | .ok new_schema_id =>
        match move_table c.tables table_id newRef.table new_schema_id with
        | .error e => .error e
        | .ok tables1 => .ok { c with tables := tables1 }

/-- A time-travel qualifier after triage (`TableVersionProcessor.triage_version_ids`,
modelled from the spec since `version.rs` is not part of this source tree): either a
resolved catalog version id (legacy tables) or the raw timestamp string of a current
table. -/
inductive VersionQualifier where
  | versionId : Nat → VersionQualifier
  | timestamp : String → VersionQualifier
deriving DecidableEq, Repr

/-- One synthetic-name registration in the throwaway session: the `table@version` name
paired with the resolved snapshot (a catalog version id, or a storage snapshot loaded
as of a parsed timestamp). -/
structure SnapshotRegistration where
  name_with_version : String
  snapshot : Nat
deriving DecidableEq, Repr

/-- The per-reference registration loop of the time-travel branch of
`create_logical_plan_from_statement`: legacy references use the already-resolved version
id; timestamp references are parsed as RFC 3339 (`parseRfc3339` stands for chrono's
`DateTime::parse_from_rfc3339`; `none` is a parse failure, surfaced as the
`Failed to parse version ... as RFC3339 timestamp` execution error) and the table's log
is loaded as of that instant (`loadAsOf`). The first error aborts the whole loop. -/
def resolveVersionedTables (parseRfc3339 : String → Option Nat)
    (loadAsOf : String → Nat → Nat)
    (entries : List (String × VersionQualifier)) :
    Except SfError (List SnapshotRegistration) :=
  match entries with
  | [] => .ok []
  | (table, q) :: rest =>
    match q with
    | .versionId vid =>
      match resolveVersionedTables parseRfc3339 loadAsOf rest with
      | .error e => .error e
      | .ok regs => .ok (({ name_with_version := table ++ ":" ++ toString vid,
                            snapshot := vid } : SnapshotRegistration) :: regs)
    | .timestamp s =>
      match parseRfc3339 s with
      | none => .error (.executionError
          ("Failed to parse version " ++ s ++ " as RFC3339 timestamp"))
      | some datetime =>
        match resolveVersionedTables parseRfc3339 loadAsOf rest with
        | .error e => .error e
        | .ok regs => .ok (({ name_with_version := table ++ ":" ++ s,
                              snapshot := loadAsOf table datetime } :
                            SnapshotRegistration) :: regs)

/-- The time-travel branch of query planning: when the collected qualifier list is
non-empty, every reference must resolve before the rewritten query is handed to the
native planner; any resolution error fails the entire query and nothing is planned. -/
def plan_time_travel_query (parseRfc3339 : String → Option Nat)
    (loadAsOf : String → Nat → Nat)
    (entries : List (String × VersionQualifier)) :
    Except SfError (List SnapshotRegistration) :=
  resolveVersionedTables parseRfc3339 loadAsOf entries

/-- The context state visible to `CREATE DATABASE` execution: the catalog plus the
shared in-memory database-name→id map. -/
structure CreateCatalogState where
  catalog : Catalog
  all_database_ids : List (String × Nat)
deriving DecidableEq, Repr

/-- `SELECT id FROM database WHERE database.name = $1`, as wrapped into an `Option` by
the catalog layer. -/
def get_database_id_by_name (c : Catalog) (database_name : String) : Option Nat :=
  (c.databases.find? fun d => d.name == database_name).map fun d => d.id

/-- The auto-increment ids the backend assigns to the next `database` / `collection`
rows. -/
def nextDatabaseId (c : Catalog) : Nat :=
  ((c.databases.map fun d => d.id).foldl max 0) + 1

def nextCollectionId (c : Catalog) : Nat :=
  ((c.collections.map fun col => col.id).foldl max 0) + 1

/-- The default schema created alongside every new database. -/
def DEFAULT_SCHEMA : String := "public"

/-- Overwrite-insert into the shared name→id map (`HashMap::insert` under the write
lock). -/
def insertDatabaseId (m : List (String × Nat)) (name : String) (id : Nat) :
    List (String × Nat) :=
  (m.filter fun e => e.1 != name) ++ [(name, id)]

/-- The `LogicalPlan::CreateCatalog` arm of `create_physical_plan`: an existing name
fails with a planning error unless `IF NOT EXISTS` was given (in which case nothing
changes); a fresh name creates the database row, its default schema, and the new entry
in the shared name→id map. -/
def create_catalog (st : CreateCatalogState) (catalog_name : String)
    (if_not_exists : Bool) : Except SfError CreateCatalogState :=
  match get_database_id_by_name st.catalog catalog_name with
  | some _ =>
    if !if_not_exists then
      .error (.planError ("Database " ++ catalog_name ++ " already exists"))
    else
      .ok st
  | none =>
    let database_id := nextDatabaseId st.catalog
    let c1 := { st.catalog with
      databases := st.catalog.databases ++
        [({ id := database_id, name := catalog_name } : DatabaseRow)] }
    let c2 := { c1 with
      collections := c1.collections ++
        [({ id := nextCollectionId c1, database_id := database_id,
            name := DEFAULT_SCHEMA } : CollectionRow)] }
    .ok { catalog := c2,
          all_database_ids := insertDatabaseId st.all_database_ids catalog_name database_id }

/-- The source of a `TableScan` node: a `SeafowlTable` (whose downcast exposes its
resolved `table_version_id`) or an external table source (downcast fails). -/
inductive TableSource where
  | seafowl : Nat → TableSource
  | external : TableSource
deriving DecidableEq, Repr

/-- A logical plan shape: `TableScan` leaves and inner nodes with child plans. -/
inductive LPlan where
  | tableScan : TableSource → LPlan
  | node : List LPlan → LPlan
deriving Repr

mutual

/-- `ETagBuilderVisitor::pre_visit` folded over the whole plan (`LogicalPlan::accept`
visits a node before its children): each `TableScan` whose source downcasts to a
`SeafowlTable` pushes its `table_version_id` onto the visitor's accumulator. -/
def etagVisit : LPlan → List Nat → List Nat
  | .tableScan (.seafowl v), acc => acc ++ [v]
  | .tableScan .external, acc => acc
  | .node children, acc => etagVisitList children acc

/-- The visitor's traversal of a node's children, left to right. -/
def etagVisitList : List LPlan → List Nat → List Nat
  | [], acc => acc
  | p :: ps, acc => etagVisitList ps (etagVisit p acc)

end

mutual

/-- The sequence of resolved table-version ids a plan's table scans carry, in visit
order (the specification-side reading of what the fingerprint depends on). -/
def resolvedTableVersions : LPlan → List Nat
  | .tableScan (.seafowl v) => [v]
  | .tableScan .external => []
  | .node children => resolvedTableVersionsList children

def resolvedTableVersionsList : List LPlan → List Nat
  | [] => []
  | p :: ps => resolvedTableVersions p ++ resolvedTableVersionsList ps

end

/-- `json!(visitor.table_versions).to_string()`: the JSON serialization of the id
vector. -/
def jsonNumberList (l : List Nat) : String :=
  "[" ++ String.intercalate "," (l.map toString) ++ "]"

/-- `plan_to_etag` from `frontend/http.rs`: run the visitor over the plan, serialize the
collected table versions to JSON and hash them (`hashHex` stands for hex-encoded
SHA-256, an arbitrary fixed function of the serialized bytes). -/
def plan_to_etag (hashHex : String → String) (plan : LPlan) : String :=
  hashHex (jsonNumberList (etagVisit plan []))

/-- `create_logical_plan` from `context.rs`: parse produces a statement list; anything
but exactly one statement is rejected with a not-implemented error, otherwise the single
statement is planned (`planStatement` stands for
`create_logical_plan_from_statement`). -/
def create_logical_plan (planStatement : String → Except SfError LPlan)
    (statements : List String) : Except SfError LPlan :=
  if statements.length != 1 then
    .error (.notImplemented "The context currently only supports a single SQL statement")
  else
    match statements with
    | [s] => planStatement s
    | _ => .error (.internalError "unreachable")

/-- One commit of a storage-format (Delta) table log: its commit metadata (the
producer origin and sequence number written by the ingestion path, when present) and the
number of data rows the commit added. -/
structure DeltaCommit where
  origin : Option String
  sequence : Option Nat
  num_rows : Nat
deriving DecidableEq, Repr

/-- A storage-format table: its append-only commit log (the creation commit included). -/
structure DeltaTableState where
  commits : List DeltaCommit
deriving DecidableEq, Repr

/-- The state the ingestion path sees: the object storage (location → table) and the
put manager's per-destination in-memory sequence numbers (the manager itself lives in
`put_data.rs`, outside this source tree; its lookup is modelled from the spec as a
per-destination map). -/
structure PutState where
  storage : List (String × DeltaTableState)
  mem_seqs : List (String × Nat)
deriving DecidableEq, Repr

/-- The result record `DataPutResult` returned to the producer. -/
structure DataPutResult where
  accepted : Bool
  memory_sequence_number : Option Nat
  durable_sequence_number : Option Nat
deriving DecidableEq, Repr

/-- Failures of the put path that escape as errors (the `batches.first().unwrap()`
panic on a table-creating call with no batches at all). -/
inductive PutError where
  | panicErr : PutError
deriving DecidableEq, Repr

def lookupTable (storage : List (String × DeltaTableState)) (loc : String) :
    Option DeltaTableState :=
  (storage.find? fun e => e.1 == loc).map fun e => e.2

/-- `table.history(Some(1))` followed by reading the `sequence` commit-metadata key:
the sequence number of the most recent commit, when parsable. -/
def lastCommitSeq (t : DeltaTableState) : Option Nat :=
  t.commits.getLast?.bind fun ci => ci.sequence

def lookupMemSeq (mem_seqs : List (String × Nat)) (loc : String) : Option Nat :=
  (mem_seqs.find? fun e => e.1 == loc).map fun e => e.2

/-- Total data rows at a location (0 when no table exists there). -/
def rowsAt (storage : List (String × DeltaTableState)) (loc : String) : Nat :=
  match lookupTable storage loc with
  | none => 0
  | some t => (t.commits.map fun ci => ci.num_rows).foldl (· + ·) 0

/-- Modelled from the spec: `SeafowlPutDataManager::put_batches` (`put_data.rs` is not
part of this source tree). Per the spec, on acquiring exclusive access the batch is
appended as a new storage-format commit and the durable and pending sequence numbers
advance to the producer's sequence number. -/
def put_batches (st : PutState) (loc : String) (sequence_number : Nat)
    (num_rows : Nat) : PutState × DataPutResult :=
  let storage1 := st.storage.map fun e =>
    if e.1 == loc then
      (e.1, { commits := e.2.commits ++
        [{ origin := none, sequence := some sequence_number, num_rows := num_rows }] })
    else e
  ({ storage := storage1,
     mem_seqs := (st.mem_seqs.filter fun e => e.1 != loc) ++ [(loc, sequence_number)] },
   { accepted := true, memory_sequence_number := some sequence_number,
     durable_sequence_number := some sequence_number })

/-- `process_put_cmd` from `frontend/flight/handler.rs`. The call first checks whether a
storage-format table exists at the destination: if not, it creates one whose creation
commit records the producer origin and sequence number (reading the schema off the first
batch — a panic when there is none), with the durable sequence number then unknown;
otherwise it reads the durable sequence number off the latest commit. It then computes
the in-memory sequence number (manager map, falling back to the durable one), returns
early with `accepted = true` when the batches hold no rows, and otherwise attempts the
seconds-bounded write-lock wait: `lockAcquired = false` models the timeout, answered
with `accepted = false` and the last known sequence numbers rather than an error. -/
def process_put_cmd (st : PutState) (loc : String) (origin : String)
    (sequence_number : Nat) (batches : List Nat) (lockAcquired : Bool) :
    Except PutError (PutState × DataPutResult) :=
  match lookupTable st.storage loc with
  | none =>
    match batches.head? with
    | none => .error .panicErr
    | some _ =>
      let st1 : PutState := { st with storage := st.storage ++
        [(loc, { commits := [{ origin := some origin,
                               sequence := some sequence_number, num_rows := 0 }] })] }
      let dur_seq : Option Nat := none
      let mem_seq := (lookupMemSeq st1.mem_seqs loc).or dur_seq
      let num_rows := batches.foldl (· + ·) 0
      if num_rows == 0 then
        .ok (st1, { accepted := true, memory_sequence_number := mem_seq,
                    durable_sequence_number := dur_seq })
      else if lockAcquired then
        .ok (put_batches st1 loc sequence_number num_rows)
      else
        .ok (st1, { accepted := false, memory_sequence_number := mem_seq,
                    durable_sequence_number := dur_seq })
  | some table =>
    let dur_seq := lastCommitSeq table
    let mem_seq := (lookupMemSeq st.mem_seqs loc).or dur_seq
    let num_rows := batches.foldl (· + ·) 0
    if num_rows == 0 then
      .ok (st, { accepted := true, memory_sequence_number := mem_seq,
                 durable_sequence_number := dur_seq })
    else if lockAcquired then
      .ok (put_batches st loc sequence_number num_rows)
    else
      .ok (st, { accepted := false, memory_sequence_number := mem_seq,
                 durable_sequence_number := dur_seq })

/-- A concrete two-version table history used to exercise the version-deletion theorem. -/
def exVs : List TableVersionRow :=
  [{ id := 1, table_id := 10, version := 0, creation_time := 100 },
   { id := 2, table_id := 10, version := 1, creation_time := 200 },
   { id := 3, table_id := 11, version := 0, creation_time := 150 }]

/-- A concrete one-table catalog (database `db`, schema `public`, table `t` with uuid 7,
one version with one column) used to exercise the catalog theorems. -/
def exCatalog : Catalog :=
  { databases := [{ id := 0, name := "db" }],
    collections := [{ id := 0, database_id := 0, name := "public" }],
    tables := [{ id := 0, collection_id := 0, name := "t", uuid := 7, legacy := false }],
    table_versions := [{ id := 1, table_id := 0, version := 0, creation_time := 50 }],
    table_columns := [{ table_version_id := 1, name := "a", type := "INT" }] }

/-- The row `get_all_columns_in_database` produces for `exCatalog`. -/
def exRow : AllDatabaseColumnsResult :=
  { database_name := "db", collection_name := "public", table_name := "t",
    table_id := 0, table_uuid := 7, table_legacy := false, table_version_id := 1,
    column_name := "a", column_type := "INT" }

/-- A context state whose catalog already holds database `db`. -/
def exCCState : CreateCatalogState :=
  { catalog := exCatalog, all_database_ids := [("db", 0)] }

/-- A put-path state with no table anywhere. -/
def exPut0 : PutState := { storage := [], mem_seqs := [] }

/-- A put-path state with one table at `loc` whose latest commit carries sequence 5. -/
def exPut1 : PutState :=
  { storage := [("loc", { commits :=
      [{ origin := some "o", sequence := some 5, num_rows := 3 }] })],
    mem_seqs := [] }

theorem length_filter_not_add {α : Type} (p : α → Bool) (l : List α) :
    (l.filter fun a => !(p a)).length + (l.filter p).length = l.length := by
  induction l with
  | nil => simp
  | cons a l ih =>
    cases h : p a <;> simp [List.filter_cons, h] <;> omega

theorem row_eq_of_id_eq {vs : List TableVersionRow}
    (hnodup : (vs.map fun r => r.id).Nodup) {r s : TableVersionRow}
    (hr : r ∈ vs) (hs : s ∈ vs) (h : r.id = s.id) : r = s :=
  List.inj_on_of_nodup_map hnodup hr hs h

theorem exists_partitionTop (vs : List TableVersionRow) {r : TableVersionRow}
    (hr : r ∈ vs) :
    ∃ m ∈ vs, m.table_id = r.table_id ∧ isPartitionTop vs m = true := by
  set P := vs.filter (fun s => s.table_id == r.table_id) with hP
  have hrP : r ∈ P := by
    simp [hP, List.mem_filter, hr]
  have hne : P ≠ [] := fun h => by simp [h] at hrP
  obtain ⟨m, hm⟩ : ∃ m, m ∈ P.argmax versionKey := by
    cases hargm : P.argmax versionKey with
    | none => exact absurd (List.argmax_eq_none.mp hargm) hne
    | some m => exact ⟨m, by simp [hargm]⟩
  have hmP : m ∈ P := List.argmax_mem hm
  have hmvs : m ∈ vs := (List.mem_filter.mp hmP).1
  have hmt : m.table_id = r.table_id := by
    have := (List.mem_filter.mp hmP).2
    simpa using this
  refine ⟨m, hmvs, hmt, ?_⟩
  simp only [isPartitionTop, List.all_eq_true]
  intro s hs
  by_cases hst : s.table_id = m.table_id
  · have hsP : s ∈ P := by
      simp [hP, List.mem_filter, hs, hst, hmt]
    have hle : versionKey s ≤ versionKey m := List.le_of_mem_argmax hsP hm
    have hle' : s.creation_time < m.creation_time ∨
        (s.creation_time = m.creation_time ∧ s.id ≤ m.id) := by
      simpa [versionKey, Prod.Lex.le_iff] using hle
    by_cases hid : s.id = m.id
    · simp [hid]
    · have : ranksAbove m s = true := by
        simp only [ranksAbove, Bool.or_eq_true, Bool.and_eq_true, decide_eq_true_eq,
          beq_iff_eq]
        rcases hle' with h | ⟨h1, h2⟩
        · left; exact h
        · right; exact ⟨h1, lt_of_le_of_ne h2 hid⟩
      simp [this]
  · simp [bne_iff_ne, hst]

theorem mem_keptVersionIds_iff {vs : List TableVersionRow}
    (hnodup : (vs.map fun r => r.id).Nodup) {r : TableVersionRow} (hr : r ∈ vs) :
    (keptVersionIds vs).contains r.id = true ↔ isPartitionTop vs r = true := by
  have hc : (keptVersionIds vs).contains r.id = true ↔ r.id ∈ keptVersionIds vs := by
    simp
  rw [hc]
  simp only [keptVersionIds, List.mem_map, List.mem_filter]
  constructor
  · rintro ⟨m, ⟨hmvs, hmtop⟩, hmid⟩
    have : m = r := row_eq_of_id_eq hnodup hmvs hr hmid
    rwa [this] at hmtop
  · intro h
    exact ⟨r, ⟨hr, h⟩, rfl⟩

/-- C1: `delete_old_table_versions` (called with a table id or with none) returns the
number of deleted rows; it keeps a version row iff the row is outside the targeted scope
or is its table's most recent version, ranked by `creation_time` descending then `id`
descending; every table retains at least one version; and for a table with exactly one
version nothing of that table is deleted. -/
theorem delete_old_table_versions_correct
    (vs : List TableVersionRow) (tid : Option Nat)
    (hnodup : (vs.map fun r => r.id).Nodup) :
    (delete_old_table_versions vs tid).2 + (delete_old_table_versions vs tid).1.length
        = vs.length ∧
    (∀ r ∈ vs, (r ∈ (delete_old_table_versions vs tid).1 ↔
        ((∀ t, tid = some t → r.table_id = t) → isPartitionTop vs r = true))) ∧
    (∀ r ∈ vs, ∃ m ∈ (delete_old_table_versions vs tid).1, m.table_id = r.table_id) ∧
    (∀ r ∈ vs, (vs.filter fun s => s.table_id == r.table_id).length = 1 →
        r ∈ (delete_old_table_versions vs tid).1) := by
  have hkeep : ∀ r ∈ vs, (r ∈ (delete_old_table_versions vs tid).1 ↔
      ((∀ t, tid = some t → r.table_id = t) → isPartitionTop vs r = true)) := by
    intro r hr
    simp only [delete_old_table_versions, List.mem_filter]
    cases tid with
    | none =>
      simp only [Bool.true_and, Bool.not_not]
      rw [mem_keptVersionIds_iff hnodup hr]
      constructor
      · rintro ⟨_, h⟩
        exact fun _ => h
      · intro h
        exact ⟨hr, h (by intro t ht; cases ht)⟩
    | some t =>
      by_cases hrt : r.table_id = t
      · simp only [hrt, beq_self_eq_true, Bool.true_and, Bool.not_not]
        rw [mem_keptVersionIds_iff hnodup hr]
        constructor
        · rintro ⟨_, h⟩
          exact fun _ => h
        · intro h
          exact ⟨hr, h (by intro t' ht'; cases ht'; rfl)⟩
      · have hbeq : (r.table_id == t) = false := by simp [hrt]
        constructor
        · intro _ hall
          exact absurd (hall t rfl) hrt
        · intro _
          exact ⟨hr, by simp [hbeq]⟩
  refine ⟨?_, hkeep, ?_, ?_⟩
  · simp only [delete_old_table_versions]
    have := length_filter_not_add
      (fun r => (match tid with
        | some t => r.table_id == t
        | none => true) && !((keptVersionIds vs).contains r.id)) vs
    omega
  · intro r hr
    obtain ⟨m, hmvs, hmt, hmtop⟩ := exists_partitionTop vs hr
    refine ⟨m, ?_, hmt⟩
    rw [hkeep m hmvs]
    intro _
    exact hmtop
  · intro r hr hlen
    rw [hkeep r hr]
    intro _
    obtain ⟨a, ha⟩ := List.length_eq_one.mp hlen
    have hrP : r ∈ vs.filter fun s => s.table_id == r.table_id := by
      simp [List.mem_filter, hr]
    rw [ha] at hrP
    have hra : r = a := by simpa using hrP
    simp only [isPartitionTop, List.all_eq_true]
    intro s hs
    by_cases hst : s.table_id = r.table_id
    · have hsP : s ∈ vs.filter fun s' => s'.table_id == r.table_id := by
        simp [List.mem_filter, hs, hst]
      rw [ha] at hsP
      have hsa : s = a := by simpa using hsP
      have : s = r := by rw [hsa, hra]
      simp [this]
    · simp [bne_iff_ne, hst]

theorem delete_old_table_versions_correct_witness :
    ((exVs.map fun r => r.id).Nodup) ∧
    (delete_old_table_versions exVs none).2 +
        (delete_old_table_versions exVs none).1.length = exVs.length :=
  ⟨by decide, (delete_old_table_versions_correct exVs none (by decide)).1⟩

/-- C10: `create_logical_plan` rejects every SQL text that parses into a number of
statements other than exactly one with a not-implemented error, so nothing is planned
for zero or for two or more statements. -/
theorem create_logical_plan_single_statement
    (planStatement : String → Except SfError LPlan) (statements : List String)
    (h : statements.length ≠ 1) :
    create_logical_plan planStatement statements =
      .error (.notImplemented
        "The context currently only supports a single SQL statement") := by
  have hb : (statements.length != 1) = true := by simpa using h
  simp [create_logical_plan, hb]

theorem create_logical_plan_single_statement_witness :
    ([] : List String).length ≠ 1 ∧
    create_logical_plan (fun _ => .ok (.node [])) [] =
      .error (.notImplemented
        "The context currently only supports a single SQL statement") :=
  ⟨by decide, create_logical_plan_single_statement (fun _ => .ok (.node [])) [] (by decide)⟩

mutual

theorem etagVisit_eq (p : LPlan) (acc : List Nat) :
    etagVisit p acc = acc ++ resolvedTableVersions p := by
  cases p with
  | tableScan s =>
    cases s <;> simp [etagVisit, resolvedTableVersions]
  | node cs =>
    simp [etagVisit, resolvedTableVersions, etagVisitList_eq cs acc]

theorem etagVisitList_eq (ps : List LPlan) (acc : List Nat) :
    etagVisitList ps acc = acc ++ resolvedTableVersionsList ps := by
  cases ps with
  | nil => simp [etagVisitList, resolvedTableVersionsList]
  | cons p ps' =>
    simp [etagVisitList, resolvedTableVersionsList, etagVisit_eq p acc,
      etagVisitList_eq ps' (acc ++ resolvedTableVersions p), List.append_assoc]

end

/-- C9: the cache-validation fingerprint is a fixed function of the sequence of resolved
table-version ids of the plan's table scans: any two plans whose scans resolve to the
same id sequence hash to the same token, and recomputing the token for one plan always
yields the same value. -/
theorem plan_to_etag_deterministic (hashHex : String → String) (p q : LPlan)
    (h : resolvedTableVersions p = resolvedTableVersions q) :
    plan_to_etag hashHex p = plan_to_etag hashHex q ∧
    plan_to_etag hashHex p = plan_to_etag hashHex p := by
  refine ⟨?_, rfl⟩
  simp [plan_to_etag, etagVisit_eq, h]

theorem plan_to_etag_deterministic_witness :
    resolvedTableVersions (.node [.tableScan (.seafowl 4), .tableScan .external]) =
        resolvedTableVersions (.tableScan (.seafowl 4)) ∧
    plan_to_etag (fun s => s) (.node [.tableScan (.seafowl 4), .tableScan .external]) =
      plan_to_etag (fun s => s) (.tableScan (.seafowl 4)) := by
  have h : resolvedTableVersions
      (.node [.tableScan (.seafowl 4), .tableScan .external]) =
      resolvedTableVersions (.tableScan (.seafowl 4)) := by
    simp [resolvedTableVersions, resolvedTableVersionsList]
  exact ⟨h, (plan_to_etag_deterministic (fun s => s) _ _ h).1⟩

/-- C7: whenever any collected time-travel qualifier is a timestamp that does not parse
as RFC 3339, the whole planning attempt fails with the parse error: no registration list
is ever handed on to the native planner. -/
theorem time_travel_malformed_timestamp_fails
    (parse : String → Option Nat) (load : String → Nat → Nat)
    (entries : List (String × VersionQualifier))
    (h : ∃ e ∈ entries, ∃ s, e.2 = .timestamp s ∧ parse s = none) :
    ∃ s, parse s = none ∧
      plan_time_travel_query parse load entries =
        .error (.executionError
          ("Failed to parse version " ++ s ++ " as RFC3339 timestamp")) := by
  induction entries with
  | nil => simp at h
  | cons e rest ih =>
    obtain ⟨table, q⟩ := e
    cases q with
    | versionId vid =>
      have h' : ∃ e ∈ rest, ∃ s, e.2 = .timestamp s ∧ parse s = none := by
        obtain ⟨e', he', s, hs, hp⟩ := h
        rcases List.mem_cons.mp he' with rfl | hmem
        · cases hs
        · exact ⟨e', hmem, s, hs, hp⟩
      obtain ⟨s, hs, herr⟩ := ih h'
      refine ⟨s, hs, ?_⟩
      simp only [plan_time_travel_query, resolveVersionedTables] at herr ⊢
      rw [herr]
    | timestamp s' =>
      cases hp : parse s' with
      | none =>
        exact ⟨s', hp, by
          simp only [plan_time_travel_query, resolveVersionedTables, hp]⟩
      | some d =>
        have h' : ∃ e ∈ rest, ∃ s, e.2 = .timestamp s ∧ parse s = none := by
          obtain ⟨e', he', s, hs, hps⟩ := h
          rcases List.mem_cons.mp he' with rfl | hmem
          · simp only at hs
            cases hs
            rw [hps] at hp
            cases hp
          · exact ⟨e', hmem, s, hs, hps⟩
        obtain ⟨s, hs, herr⟩ := ih h'
        refine ⟨s, hs, ?_⟩
        simp only [plan_time_travel_query, resolveVersionedTables, hp] at herr ⊢
        rw [herr]

theorem time_travel_malformed_timestamp_fails_witness :
    (∃ e ∈ [("t", VersionQualifier.timestamp "not-a-time")],
        ∃ s, e.2 = .timestamp s ∧ (fun _ : String => (none : Option Nat)) s = none) ∧
    ∃ s, (fun _ : String => (none : Option Nat)) s = none ∧
      plan_time_travel_query (fun _ => none) (fun _ _ => 0)
          [("t", VersionQualifier.timestamp "not-a-time")] =
        .error (.executionError
          ("Failed to parse version " ++ s ++ " as RFC3339 timestamp")) :=
  ⟨⟨("t", .timestamp "not-a-time"), by decide, "not-a-time", rfl, rfl⟩,
   time_travel_malformed_timestamp_fails (fun _ => none) (fun _ _ => 0)
     [("t", .timestamp "not-a-time")]
     ⟨("t", .timestamp "not-a-time"), by decide, "not-a-time", rfl, rfl⟩⟩

/-- C8 counterexample: re-running `CREATE DATABASE db` without `IF NOT EXISTS` on a
catalog that already holds `db` fails with the planning-classified error
`Database db already exists`, not with the repository's conflict (unique-violation)
classification the claim names. -/
theorem create_catalog_duplicate_not_conflict :
    create_catalog exCCState "db" false =
      .error (.planError "Database db already exists") ∧
    create_catalog exCCState "db" false ≠ .error .conflict := by
  constructor
  · rfl
  · intro h
    simp [create_catalog, exCCState, exCatalog, get_database_id_by_name,
      List.find?] at h

/-- C8 (amended): with `IF NOT EXISTS`, re-creating an existing database succeeds and
leaves the state untouched; without it, the call fails with the planning-classified
duplicate-name error (and, returning before any insert, mutates nothing); a fresh name
creates the database row, its default `public` schema, and the new entry in the shared
name→id map. -/
theorem create_catalog_correct (st : CreateCatalogState) (name : String) :
    ((get_database_id_by_name st.catalog name).isSome →
      create_catalog st name true = .ok st) ∧
    ((get_database_id_by_name st.catalog name).isSome →
      ∃ msg, create_catalog st name false = .error (.planError msg)) ∧
    (get_database_id_by_name st.catalog name = none →
      ∀ ine : Bool, create_catalog st name ine =
        .ok { catalog := { st.catalog with
                databases := st.catalog.databases ++
                  [{ id := nextDatabaseId st.catalog, name := name }],
                collections := st.catalog.collections ++
                  [{ id := nextCollectionId st.catalog,
                     database_id := nextDatabaseId st.catalog,
                     name := DEFAULT_SCHEMA }] },
              all_database_ids :=
                insertDatabaseId st.all_database_ids name (nextDatabaseId st.catalog) }) := by
  refine ⟨?_, ?_, ?_⟩
  · intro h
    obtain ⟨id, hid⟩ := Option.isSome_iff_exists.mp h
    simp [create_catalog, hid]
  · intro h
    obtain ⟨id, hid⟩ := Option.isSome_iff_exists.mp h
    exact ⟨"Database " ++ name ++ " already exists", by simp [create_catalog, hid]⟩
  · intro h ine
    simp [create_catalog, h, nextCollectionId]

theorem create_catalog_correct_witness :
    (get_database_id_by_name exCCState.catalog "db").isSome ∧
    create_catalog exCCState "db" true = .ok exCCState :=
  ⟨by decide, (create_catalog_correct exCCState "db").1 (by decide)⟩

/-- C2 counterexample: a zero-row put to a location with no table does not leave storage
unchanged — `process_put_cmd` first creates a storage-format table there (recording the
producer origin and sequence number in the creation commit) and only then short-circuits
on the empty batches. -/
theorem process_put_cmd_empty_put_creates_table :
    lookupTable exPut0.storage "loc" = none ∧
    process_put_cmd exPut0 "loc" "o" 42 [0] true =
      .ok ({ storage := [("loc", { commits :=
                [{ origin := some "o", sequence := some 42, num_rows := 0 }] })],
             mem_seqs := [] },
           { accepted := true, memory_sequence_number := none,
             durable_sequence_number := none }) ∧
    (process_put_cmd exPut0 "loc" "o" 42 [0] true ≠
      .ok (exPut0, { accepted := true, memory_sequence_number := none,
                     durable_sequence_number := none })) := by
  refine ⟨rfl, rfl, ?_⟩
  intro h
  simp [process_put_cmd, exPut0, lookupTable, lookupMemSeq] at h

/-- C2 (amended): a put whose batches hold zero rows in total returns `accepted = true`
with the current in-memory and durable sequence numbers; when a table already exists at
the destination the state is completely untouched, and when none exists a new empty
table recording the producer origin and sequence number is created first (the durable
sequence number then being unknown). -/
theorem process_put_cmd_empty_batches (st : PutState) (loc origin : String)
    (seq : Nat) (batches : List Nat) (lock : Bool)
    (hzero : batches.foldl (· + ·) 0 = 0) :
    (∀ table, lookupTable st.storage loc = some table →
      process_put_cmd st loc origin seq batches lock =
        .ok (st, { accepted := true,
                   memory_sequence_number :=
                     (lookupMemSeq st.mem_seqs loc).or (lastCommitSeq table),
                   durable_sequence_number := lastCommitSeq table })) ∧
    (lookupTable st.storage loc = none → batches ≠ [] →
      process_put_cmd st loc origin seq batches lock =
        .ok ({ st with storage := st.storage ++
                [(loc, { commits := [{ origin := some origin, sequence := some seq,
                                       num_rows := 0 }] })] },
             { accepted := true,
               memory_sequence_number := lookupMemSeq st.mem_seqs loc,
               durable_sequence_number := none })) := by
  constructor
  · intro table htable
    simp [process_put_cmd, htable, hzero]
  · intro hnone hne
    obtain ⟨b, bs, rfl⟩ := List.exists_cons_of_ne_nil hne
    simp [process_put_cmd, hnone, hzero, Option.or_none]

theorem process_put_cmd_empty_batches_witness :
    (([] : List Nat).foldl (· + ·) 0 = 0) ∧
    lookupTable exPut1.storage "loc" =
      some { commits := [{ origin := some "o", sequence := some 5, num_rows := 3 }] } ∧
    process_put_cmd exPut1 "loc" "o" 6 [] true =
      .ok (exPut1, { accepted := true, memory_sequence_number := some 5,
                     durable_sequence_number := some 5 }) :=
  ⟨rfl, by decide,
   (process_put_cmd_empty_batches exPut1 "loc" "o" 6 [] true rfl).1
     { commits := [{ origin := some "o", sequence := some 5, num_rows := 3 }] }
     (by decide)⟩

/-- C3: when the batches hold at least one row and the bounded wait for the exclusive
write lock times out, `process_put_cmd` answers with an ordinary result (not an error)
carrying `accepted = false` and the last known in-memory and durable sequence numbers,
and the row count at every storage location is unchanged. -/
theorem process_put_cmd_timeout (st : PutState) (loc origin : String) (seq : Nat)
    (batches : List Nat)
    (hrows : 0 < batches.foldl (· + ·) 0) :
    ∃ st' res, process_put_cmd st loc origin seq batches false = .ok (st', res) ∧
      res.accepted = false ∧
      res.durable_sequence_number =
        (match lookupTable st.storage loc with
         | some t => lastCommitSeq t
         | none => none) ∧
      res.memory_sequence_number =
        (lookupMemSeq st.mem_seqs loc).or res.durable_sequence_number ∧
      (∀ l, rowsAt st'.storage l = rowsAt st.storage l) := by
  have hne : batches ≠ [] := by
    intro h
    rw [h] at hrows
    simp at hrows
  have hb : (batches.foldl (· + ·) 0 == 0) = false := by
    simp only [beq_eq_false_iff_ne, ne_eq]
    omega
  cases htable : lookupTable st.storage loc with
  | some table =>
    refine ⟨st, { accepted := false,
                  memory_sequence_number :=
                    (lookupMemSeq st.mem_seqs loc).or (lastCommitSeq table),
                  durable_sequence_number := lastCommitSeq table },
            ?_, rfl, ?_, ?_, fun l => rfl⟩
    · simp [process_put_cmd, htable, hb]
    · simp
    · simp
  | none =>
    obtain ⟨b, bs, rfl⟩ := List.exists_cons_of_ne_nil hne
    refine ⟨{ st with storage := st.storage ++
                [(loc, { commits := [{ origin := some origin, sequence := some seq,
                                       num_rows := 0 }] })] },
            { accepted := false,
              memory_sequence_number := lookupMemSeq st.mem_seqs loc,
              durable_sequence_number := none },
            ?_, rfl, ?_, ?_, ?_⟩
    · simp only [process_put_cmd, htable, List.head?_cons, hb, Bool.false_eq_true,
        if_false, ite_false]
      simp [Option.or_none]
    · simp
    · simp [Option.or_none]
    · intro l
      by_cases hl : l = loc
      · subst hl
        simp [rowsAt, lookupTable, List.find?_append, htable]
        cases hfind : st.storage.find? fun e => e.1 == l with
        | none => simp [rowsAt, lookupTable, hfind, List.find?_append]
        | some e =>
          exfalso
          simp [lookupTable, hfind] at htable
      · have hbeq : (loc == l) = false := by
          simp only [beq_eq_false_iff_ne, ne_eq]
          intro hco
          exact hl hco.symm
        simp [rowsAt, lookupTable, List.find?_append, hbeq]

theorem foldl_max_init_le (l : List Nat) : ∀ init, init ≤ l.foldl max init := by
  induction l with
  | nil => intro init; simp
  | cons a l ih =>
    intro init
    exact le_trans (le_max_left init a) (ih (max init a))

theorem le_foldl_max {l : List Nat} {a : Nat} (h : a ∈ l) :
    ∀ init, a ≤ l.foldl max init := by
  induction l with
  | nil => cases h
  | cons b l ih =>
    intro init
    rcases List.mem_cons.mp h with rfl | hmem
    · exact le_trans (le_max_right init a) (foldl_max_init_le l (max init a))
    · exact ih hmem (max init b)

theorem natList_max?_spec {l : List Nat} {a : Nat} (h1 : a ∈ l)
    (h2 : ∀ b ∈ l, b ≤ a) : l.max? = some a := by
  rw [List.max?_eq_some_iff (by omega) (by omega)
    (by intro a b c; constructor <;> (intro h; omega))]
  exact ⟨h1, h2⟩

theorem find?_eq_some_of_unique {α : Type} {l : List α} {p : α → Bool} {a : α}
    (ha : a ∈ l) (hpa : p a = true) (huniq : ∀ b ∈ l, p b = true → b = a) :
    l.find? p = some a := by
  cases hf : l.find? p with
  | none => exact absurd hpa (by simpa using List.find?_eq_none.mp hf a ha)
  | some b =>
    have hb := List.find?_some hf
    have hbm := List.mem_of_find?_eq_some hf
    rw [huniq b hbm hb]

/-- C4: `create_new_table_version` with a uuid unknown to the catalog fails with
NotFoundError and inserts nothing; with the uuid of a catalogued table it appends
exactly one new `table_version` row for that table — with a fresh id — whose column set
(names and types) equals that of the predecessor version, the predecessor being the
version of maximal id among the table's versions. -/
theorem create_new_table_version_correct
    (c : Catalog) (uuid : Nat) (version : Int) (now : Nat)
    (hvnodup : (c.table_versions.map fun v => v.id).Nodup)
    (hfk : ∀ col ∈ c.table_columns,
      ∃ v ∈ c.table_versions, v.id = col.table_version_id) :
    ((∀ t ∈ c.tables, t.uuid ≠ uuid) →
      create_new_table_version c uuid version now = .error .notFound) ∧
    (∀ t ∈ c.tables, t.uuid = uuid →
      (∀ t' ∈ c.tables, t'.uuid = uuid → t' = t) →
      ∀ pred ∈ c.table_versions, pred.table_id = t.id →
        (∀ v ∈ c.table_versions, v.table_id = t.id → v.id ≤ pred.id) →
        ∃ c', create_new_table_version c uuid version now =
            .ok (c', nextTableVersionId c) ∧
          c'.table_versions = c.table_versions ++
            [{ id := nextTableVersionId c, table_id := t.id, version := version,
               creation_time := now }] ∧
          c'.databases = c.databases ∧ c'.collections = c.collections ∧
          c'.tables = c.tables ∧
          (∀ v ∈ c.table_versions, v.id ≠ nextTableVersionId c) ∧
          columnsOfVersion c' (nextTableVersionId c) = columnsOfVersion c pred.id) := by
  constructor
  · intro h
    have hfil : (c.table_versions.filter fun v =>
        c.tables.any fun t => v.table_id == t.id && t.uuid == uuid) = [] := by
      rw [List.filter_eq_nil_iff]
      intro v _
      simp only [List.any_eq_true, Bool.and_eq_true, beq_iff_eq]
      rintro ⟨t', ht', _, htu'⟩
      exact h t' ht' htu'
    simp [create_new_table_version, maxVersionIdForUuid, hfil]
  · intro t ht htu huniq pred hpred hpt hmax
    have hSmem : ∀ v, (v ∈ c.table_versions.filter fun v =>
        c.tables.any fun t => v.table_id == t.id && t.uuid == uuid) ↔
        (v ∈ c.table_versions ∧ v.table_id = t.id) := by
      intro v
      rw [List.mem_filter]
      constructor
      · rintro ⟨hv, hany⟩
        simp only [List.any_eq_true, Bool.and_eq_true, beq_iff_eq] at hany
        obtain ⟨t', ht', hvt', htu'⟩ := hany
        rw [huniq t' ht' htu'] at hvt'
        exact ⟨hv, hvt'⟩
      · rintro ⟨hv, hvt⟩
        refine ⟨hv, ?_⟩
        simp only [List.any_eq_true, Bool.and_eq_true, beq_iff_eq]
        exact ⟨t, ht, hvt, htu⟩
    have hmaxeq : maxVersionIdForUuid c uuid = some pred.id := by
      rw [maxVersionIdForUuid]
      apply natList_max?_spec
      · exact List.mem_map.mpr ⟨pred, (hSmem pred).mpr ⟨hpred, hpt⟩, rfl⟩
      · intro b hb
        obtain ⟨v, hvS, rfl⟩ := List.mem_map.mp hb
        obtain ⟨hv, hvt⟩ := (hSmem v).mp hvS
        exact hmax v hv hvt
    have hfind : (c.table_versions.find? fun v => v.id == pred.id) = some pred := by
      apply find?_eq_some_of_unique hpred (by simp)
      intro b hb hbid
      exact row_eq_of_id_eq hvnodup hb hpred (by simpa using hbid)
    have hfresh : ∀ v ∈ c.table_versions, v.id ≠ nextTableVersionId c := by
      intro v hv
      have : v.id ≤ (c.table_versions.map fun v => v.id).foldl max 0 :=
        le_foldl_max (List.mem_map.mpr ⟨v, hv, rfl⟩) 0
      rw [nextTableVersionId]
      omega
    refine ⟨{ c with
        table_versions := c.table_versions ++
          [{ id := nextTableVersionId c, table_id := t.id, version := version,
             creation_time := now }],
        table_columns := c.table_columns ++
          ((c.table_columns.filter fun col => col.table_version_id == pred.id).map
            fun col => { col with table_version_id := nextTableVersionId c }) },
      ?_, rfl, rfl, rfl, rfl, hfresh, ?_⟩
    · rw [create_new_table_version, hmaxeq]
      simp only [hfind]
      rw [hpt]
    · rw [columnsOfVersion, columnsOfVersion]
      simp only [List.filter_append]
      have hold : (c.table_columns.filter
          fun col => col.table_version_id == nextTableVersionId c) = [] := by
        rw [List.filter_eq_nil_iff]
        intro col hcol
        simp only [beq_iff_eq]
        obtain ⟨v, hv, hvid⟩ := hfk col hcol
        intro hco
        exact hfresh v hv (by rw [hvid, hco])
      have hnew : (((c.table_columns.filter
            fun col => col.table_version_id == pred.id).map
            fun col => { col with table_version_id := nextTableVersionId c }).filter
          fun col => col.table_version_id == nextTableVersionId c) =
          ((c.table_columns.filter fun col => col.table_version_id == pred.id).map
            fun col => { col with table_version_id := nextTableVersionId c }) := by
        rw [List.filter_eq_self]
        intro col hcol
        obtain ⟨col0, _, rfl⟩ := List.mem_map.mp hcol
        simp
      rw [hold, hnew, List.nil_append, List.map_map]
      rfl

theorem create_new_table_version_correct_witness :
    ((exCatalog.table_versions.map fun v => v.id).Nodup) ∧
    ∃ c', create_new_table_version exCatalog 7 1 60 =
        .ok (c', nextTableVersionId exCatalog) ∧
      c'.table_versions = exCatalog.table_versions ++
        [{ id := nextTableVersionId exCatalog, table_id := 0, version := 1,
           creation_time := 60 }] :=
  ⟨by decide,
   match (create_new_table_version_correct exCatalog 7 1 60 (by decide)
      (by decide)).2
      { id := 0, collection_id := 0, name := "t", uuid := 7, legacy := false }
      (by decide) rfl (by decide)
      { id := 1, table_id := 0, version := 0, creation_time := 50 }
      (by decide) rfl (by decide) with
   | ⟨c', hok, hver, _⟩ => ⟨c', hok, hver⟩⟩

theorem table_row_eq_of_id_eq {ts : List TableRow}
    (hnodup : (ts.map fun t => t.id).Nodup) {r s : TableRow}
    (hr : r ∈ ts) (hs : s ∈ ts) (h : r.id = s.id) : r = s :=
  List.inj_on_of_nodup_map hnodup hr hs h

/-- C6: RENAME TABLE fails when the source table is missing, when the target name is
already taken, or — when moving across schemas — when the target schema does not exist;
on success only the renamed table's catalog row changes, and only its name and
collection pointer: its id, uuid and legacy flag as well as the databases, collections,
versions and columns are untouched, and the new name resolves to the same table id (so
the storage uuid behind it, and hence the data, is the prior one). -/
theorem rename_table_correct (c : Catalog) (selfDb : String)
    (oldRef newRef : ResolvedRef)
    (htnodup : (c.tables.map fun t => t.id).Nodup) :
    (get_table_id_by_name c oldRef.catalog oldRef.schema oldRef.table = none →
      ∃ msg, rename_table c selfDb oldRef newRef = .error (.planError msg)) ∧
    ((get_table_id_by_name c oldRef.catalog oldRef.schema oldRef.table).isSome →
      (get_table_id_by_name c newRef.catalog newRef.schema newRef.table).isSome →
      ∃ msg, rename_table c selfDb oldRef newRef = .error (.planError msg)) ∧
    ((get_table_id_by_name c oldRef.catalog oldRef.schema oldRef.table).isSome →
      get_table_id_by_name c newRef.catalog newRef.schema newRef.table = none →
      newRef.catalog = selfDb → newRef.schema ≠ oldRef.schema →
      get_collection_id_by_name c selfDb newRef.schema = none →
      ∃ msg, rename_table c selfDb oldRef newRef = .error (.planError msg)) ∧
    (∀ tid, get_table_id_by_name c oldRef.catalog oldRef.schema oldRef.table = some tid →
      get_table_id_by_name c newRef.catalog newRef.schema newRef.table = none →
      oldRef.catalog = selfDb → newRef.catalog = selfDb →
      (newRef.schema ≠ oldRef.schema →
        (get_collection_id_by_name c selfDb newRef.schema).isSome) →
      ∃ c', rename_table c selfDb oldRef newRef = .ok c' ∧
        c'.databases = c.databases ∧ c'.collections = c.collections ∧
        c'.table_versions = c.table_versions ∧ c'.table_columns = c.table_columns ∧
        (∀ t ∈ c.tables, t.id ≠ tid → t ∈ c'.tables) ∧
        c'.tables.length = c.tables.length ∧
        (∃ t0 ∈ c.tables, t0.id = tid ∧
          ∃ t1 ∈ c'.tables, t1.id = tid ∧ t1.uuid = t0.uuid ∧ t1.legacy = t0.legacy ∧
            t1.name = newRef.table) ∧
        get_table_id_by_name c' newRef.catalog newRef.schema newRef.table = some tid) := by
  refine ⟨?_, ?_, ?_, ?_⟩
  · intro h
    exact ⟨"Source table " ++ oldRef.table ++ " doesn't exist",
      by simp [rename_table, h]⟩
  · intro hsrc htgt
    have h1 : (get_table_id_by_name c oldRef.catalog oldRef.schema
        oldRef.table).isNone = false := by
      simp [Option.isNone_eq_false_iff, Option.isSome_iff_ne_none] at hsrc ⊢
      exact hsrc
    exact ⟨"Target table " ++ newRef.table ++ " already exists",
      by simp [rename_table, h1, htgt]⟩
  · intro hsrc htgt hdb hss hcol
    obtain ⟨tid, htid⟩ := Option.isSome_iff_exists.mp hsrc
    have hssb : (newRef.schema != oldRef.schema) = true := by simpa using hss
    have hdbb : (newRef.catalog != selfDb) = false := by simpa using hdb
    exact ⟨"Schema " ++ newRef.schema ++ " does not exist!",
      by simp [rename_table, htid, htgt, hdbb, hssb, hcol]⟩
  · intro tid hsrc htgt holdc hnewc hcolsome
    obtain ⟨t0, hfind0, ht0id⟩ := Option.map_eq_some'.mp hsrc
    have ht0mem : t0 ∈ c.tables := List.mem_of_find?_eq_some hfind0
    have hpred0 := List.find?_some hfind0
    have hfindnew : (c.tables.find? fun t =>
        t.name == newRef.table &&
          c.collections.any fun col =>
            col.id == t.collection_id && col.name == newRef.schema &&
              c.databases.any fun d =>
                d.id == col.database_id && d.name == newRef.catalog) = none := by
      exact Option.map_eq_none'.mp htgt
    have hnone : ∀ t ∈ c.tables, ¬ (t.name == newRef.table &&
        c.collections.any fun col =>
          col.id == t.collection_id && col.name == newRef.schema &&
            c.databases.any fun d =>
              d.id == col.database_id && d.name == newRef.catalog) = true := by
      intro t ht
      exact fun hp => by simpa using List.find?_eq_none.mp hfindnew t ht hp
    have hdbb : (newRef.catalog != selfDb) = false := by simpa using hnewc
    -- the collection id passed to move_table
    have hstep : ∃ newcid : Option Nat,
        (if newRef.schema != oldRef.schema then
          match get_collection_id_by_name c selfDb newRef.schema with
          | none => Except.error (SfError.planError
              ("Schema " ++ newRef.schema ++ " does not exist!"))
          | some cid => Except.ok (some cid)
        else Except.ok none) = Except.ok newcid ∧
        (∀ cid, newcid = some cid → ∃ col0 ∈ c.collections, col0.id = cid ∧
          (col0.name == newRef.schema &&
            c.databases.any fun d =>
              d.id == col0.database_id && d.name == selfDb) = true) ∧
        (newcid = none → newRef.schema = oldRef.schema) := by
      by_cases hss : newRef.schema = oldRef.schema
      · refine ⟨none, ?_, ?_, fun _ => hss⟩
        · simp [hss]
        · intro cid h
          cases h
      · obtain ⟨cid, hcid⟩ := Option.isSome_iff_exists.mp (hcolsome hss)
        obtain ⟨col0, hfcol, hcol0id⟩ := Option.map_eq_some'.mp hcid
        refine ⟨some cid, ?_, ?_, ?_⟩
        · have hssb : (newRef.schema != oldRef.schema) = true := by simpa using hss
          simp [hssb, hcid]
        · intro cid' hcid'
          cases hcid'
          exact ⟨col0, List.mem_of_find?_eq_some hfcol, hcol0id,
            by simpa using List.find?_some hfcol⟩
        · intro h
          cases h
    obtain ⟨newcid, hstepeq, hcidprops, hnoneprop⟩ := hstep
    -- the updated table row
    have ht0beq : (t0.id == tid) = true := by simpa using ht0id
    have hany : (c.tables.any fun t => t.id == tid) = true := by
      simp only [List.any_eq_true]
      exact ⟨t0, ht0mem, ht0beq⟩
    set f : TableRow → TableRow := fun t =>
      if t.id == tid then
        { t with name := newRef.table, collection_id := newcid.getD t.collection_id }
      else t with hf
    have hmove : move_table c.tables tid newRef.table newcid = .ok (c.tables.map f) := by
      simp [move_table, hany, hf]
    have hrun : rename_table c selfDb oldRef newRef =
        .ok { c with tables := c.tables.map f } := by
      rw [rename_table]
      rw [hsrc]
      simp only [Option.isNone_some, Bool.false_eq_true, if_false]
      rw [htgt]
      simp only [Option.isSome_none, Bool.false_eq_true, if_false]
      rw [hdbb]
      simp only [Bool.false_eq_true, if_false]
      rw [hstepeq]
      simp only [hmove]
    set t1 : TableRow :=
      { t0 with name := newRef.table, collection_id := newcid.getD t0.collection_id }
      with ht1
    have hft0 : f t0 = t1 := by
      rw [hf]
      simp only [ht0beq, if_true]
    have ht1mem : t1 ∈ c.tables.map f := by
      rw [← hft0]
      exact List.mem_map.mpr ⟨t0, ht0mem, rfl⟩
    refine ⟨{ c with tables := c.tables.map f }, hrun, rfl, rfl, rfl, rfl, ?_, ?_,
      ⟨t0, ht0mem, ht0id, t1, ht1mem, by simp [ht1, ht0id], rfl, rfl, rfl⟩, ?_⟩
    · intro t ht htne
      have : f t = t := by
        rw [hf]
        simp only [ite_eq_right_iff]
        intro hbeq
        exact absurd (by simpa using hbeq) htne
      rw [← this]
      exact List.mem_map.mpr ⟨t, ht, rfl⟩
    · simp
    · -- the new name resolves to the same table id
      have hpredt1 : (t1.name == newRef.table &&
          c.collections.any fun col =>
            col.id == t1.collection_id && col.name == newRef.schema &&
              c.databases.any fun d =>
                d.id == col.database_id && d.name == newRef.catalog) = true := by
        simp only [ht1, Bool.and_eq_true, beq_self_eq_true, true_and,
          List.any_eq_true]
        cases hnc : newcid with
        | some cid =>
          obtain ⟨col0, hcol0mem, hcol0id, hcol0p⟩ := hcidprops cid hnc
          simp only [Bool.and_eq_true, beq_iff_eq, List.any_eq_true] at hcol0p
          obtain ⟨hcname, d, hd, hdid, hdname⟩ := hcol0p
          refine ⟨col0, hcol0mem, ?_⟩
          simp only [Bool.and_eq_true, beq_iff_eq, List.any_eq_true]
          exact ⟨⟨by simp [hcol0id], hcname⟩, d, hd, hdid, by rw [hdname, hnewc]⟩
        | none =>
          have hss := hnoneprop hnc
          simp only [Bool.and_eq_true, beq_iff_eq, List.any_eq_true] at hpred0
          obtain ⟨_, col0, hcol0mem, ⟨hcid0, hcname0⟩, d, hd, hdid, hdname⟩ := hpred0
          refine ⟨col0, hcol0mem, ?_⟩
          simp only [Bool.and_eq_true, beq_iff_eq, List.any_eq_true]
          exact ⟨⟨by simp [hcid0], by rw [hcname0, ← hss]⟩, d, hd, hdid,
            by rw [hdname, holdc, hnewc]⟩
      have hfindt1 : ((c.tables.map f).find? fun t =>
          t.name == newRef.table &&
            c.collections.any fun col =>
              col.id == t.collection_id && col.name == newRef.schema &&
                c.databases.any fun d =>
                  d.id == col.database_id && d.name == newRef.catalog) = some t1 := by
        apply find?_eq_some_of_unique ht1mem hpredt1
        intro b hb hpb
        obtain ⟨t, ht, hftb⟩ := List.mem_map.mp hb
        by_cases htid : t.id = tid
        · have : t = t0 := table_row_eq_of_id_eq htnodup ht ht0mem (by rw [htid, ht0id])
          rw [← hftb, this, hft0]
        · have hftt : f t = t := by
            rw [hf]
            simp only [ite_eq_right_iff]
            intro hbeq
            exact absurd (by simpa using hbeq) htid
          rw [← hftb, hftt] at hpb
          exact absurd hpb (hnone t ht)
      simp only [get_table_id_by_name]
      rw [hfindt1]
      simp [ht1, ht0id]

theorem rename_table_correct_witness :
    ((exCatalog.tables.map fun t => t.id).Nodup) ∧
    ∃ c', rename_table exCatalog "db" ⟨"db", "public", "t"⟩ ⟨"db", "public", "t2"⟩ =
        .ok c' ∧
      c'.table_versions = exCatalog.table_versions :=
  ⟨by decide,
   match (rename_table_correct exCatalog "db" ⟨"db", "public", "t"⟩
      ⟨"db", "public", "t2"⟩ (by decide)).2.2.2 0 (by decide) (by decide) rfl rfl
      (fun h => absurd rfl h) with
   | ⟨c', hok, _, _, hver, _⟩ => ⟨c', hok, hver⟩⟩

theorem mem_allColumnsRows {c : Catalog} {database_id : Nat}
    {dtv : List TableVersionRow} {r : AllDatabaseColumnsResult}
    (hr : r ∈ allColumnsRows c database_id dtv) :
    ∃ v ∈ dtv, v.id = r.table_version_id := by
  simp only [allColumnsRows, List.mem_flatMap] at hr
  obtain ⟨d, _, hr⟩ := hr
  split at hr
  case isFalse => simp at hr
  case isTrue =>
    simp only [List.mem_flatMap] at hr
    obtain ⟨col, _, hr⟩ := hr
    split at hr
    case isFalse => simp at hr
    case isTrue =>
      simp only [List.mem_flatMap] at hr
      obtain ⟨t, _, hr⟩ := hr
      split at hr
      case isFalse => simp at hr
      case isTrue =>
        simp only [List.mem_flatMap] at hr
        obtain ⟨v, hv, hr⟩ := hr
        split at hr
        case isFalse => simp at hr
        case isTrue =>
          simp only [List.mem_filterMap] at hr
          obtain ⟨tc, _, hsome⟩ := hr
          refine ⟨v, hv, ?_⟩
          split at hsome
          · cases hsome
            rfl
          · cases hsome

/-- C5 counterexample: with an explicitly supplied empty version-id set,
`get_all_columns_in_database` does not restrict to members of the set — the
`WHERE ... IN` clause is omitted for an empty list, so the one column row of `exCatalog`
(belonging to version 1) is returned even though the supplied set is empty. -/
theorem get_all_columns_empty_set_not_restricted :
    exRow ∈ get_all_columns_in_database exCatalog 0 (some []) ∧
    exRow.table_version_id ∉ ([] : List Nat) := by
  constructor
  · simp only [get_all_columns_in_database]
    rw [List.mem_mergeSort]
    decide
  · simp

/-- C5 (amended): when the explicitly supplied version-id set is non-empty, every
returned column row belongs to a version in the set; when no explicit set is supplied,
every returned row belongs to the latest version of its table; supplying an explicitly
empty set instead selects every version (the restriction clause is omitted). -/
theorem get_all_columns_in_database_version_scope (c : Catalog) (database_id : Nat) :
    (∀ ids : List Nat, ids ≠ [] →
      ∀ r ∈ get_all_columns_in_database c database_id (some ids),
        r.table_version_id ∈ ids) ∧
    (∀ r ∈ get_all_columns_in_database c database_id none,
      ∃ v ∈ c.table_versions, v.id = r.table_version_id ∧
        isPartitionTop c.table_versions v = true) ∧
    (get_all_columns_in_database c database_id (some []) =
      (allColumnsRows c database_id c.table_versions).mergeSort allColumnsLe) := by
  refine ⟨?_, ?_, ?_⟩
  · intro ids hne r hr
    simp only [get_all_columns_in_database] at hr
    rw [List.mem_mergeSort] at hr
    obtain ⟨v, hv, hvid⟩ := mem_allColumnsRows hr
    have hie : ids.isEmpty = false := by
      cases ids with
      | nil => exact absurd rfl hne
      | cons a l => rfl
    rw [desiredTableVersionsExplicit, hie] at hv
    simp only [Bool.false_eq_true, if_false, List.mem_filter] at hv
    rw [← hvid]
    simpa using hv.2
  · intro r hr
    simp only [get_all_columns_in_database] at hr
    rw [List.mem_mergeSort] at hr
    obtain ⟨v, hv, hvid⟩ := mem_allColumnsRows hr
    rw [latest_table_versions, List.mem_filter] at hv
    exact ⟨v, hv.1, hvid, hv.2⟩
  · simp [get_all_columns_in_database, desiredTableVersionsExplicit]

theorem get_all_columns_in_database_version_scope_witness :
    (([1] : List Nat) ≠ []) ∧
    exRow ∈ get_all_columns_in_database exCatalog 0 (some [1]) ∧
    exRow.table_version_id ∈ ([1] : List Nat) :=
  have hmem : exRow ∈ get_all_columns_in_database exCatalog 0 (some [1]) := by
    simp only [get_all_columns_in_database]
    rw [List.mem_mergeSort]
    decide
  ⟨by decide, hmem,
   (get_all_columns_in_database_version_scope exCatalog 0).1 [1] (by decide) exRow hmem⟩

theorem process_put_cmd_timeout_witness :
    (0 < ([2] : List Nat).foldl (· + ·) 0) ∧
    ∃ st' res, process_put_cmd exPut1 "loc" "o" 6 [2] false = .ok (st', res) ∧
      res.accepted = false :=
  ⟨by decide,
   match process_put_cmd_timeout exPut1 "loc" "o" 6 [2] (by decide) with
   | ⟨st', res, hok, hacc, _, _, _⟩ => ⟨st', res, hok, hacc⟩⟩

end Seafowl
